import Mathlib

/-!
Shallow embedding of the zombie-cleaner repository (tiggoins/zombie-cleaner):
the detector pass (internal/detector/detector.go) and the cleaner control loop
(internal/cleaner/cleaner.go), together with theorems about the claims on them.
-/

namespace ZombieCleaner

/-- Upper PID bound used by `buildPIDTree` in detector.go
(comment in the source: `kernel.pid_max = 4194304`). -/
def pidMax : Int := 4194304

/-- State of the recursive `walk` closure inside `buildPIDTree`:
the `visited` and `tree` maps (Go `map[int]bool`), each modelled as the
list of keys mapped to true. -/
structure WalkState where
  visited : List Int
  tree : List Int
deriving Repr, DecidableEq

/-- The recursive `walk` closure of `buildPIDTree` (detector.go):
if the pid was visited, return; otherwise mark it visited and insert it in the
tree; if the pid is outside `[0, pidMax]` stop; otherwise recurse into every
child from `parentMap[pid]` that lies within `[0, pidMax]`.
The extra fuel argument only bounds the recursion depth: every nested call is
made on a pid that was not yet visited, all such pids other than the original
root lie in `[0, pidMax]`, so no chain of nested calls is longer than
`pidMax + 3` and with fuel `≥ pidMax + 3` (see `walkFuel`) the function
computes exactly what the source walk computes, on every input. -/
def walk (pm : Int → List Int) : Nat → Int → WalkState → WalkState
  | 0, _, s => s
  | f + 1, pid, s =>
    if s.visited.contains pid then s
    else
      let s1 : WalkState := ⟨pid :: s.visited, pid :: s.tree⟩
      if pid < 0 ∨ pid > pidMax then s1
      else (pm pid).foldl (fun acc c => if 0 ≤ c ∧ c ≤ pidMax then walk pm f c acc else acc) s1

/-- Fuel for `walk`: strictly more than the longest possible chain of nested
walk calls (the root plus one call per pid in `[0, pidMax]` plus a final call
that returns at the visited check). -/
def walkFuel : Nat := 4194310

/-- A PID tree / descendant set (Go `map[int]bool`), as its list of keys. -/
abbrev PIDTree := List Int

/-- The detector's `pidTreeCache.m : map[int]map[int]bool`, as an association
list from root pid to its cached tree. -/
abbrev TreeCache := List (Int × PIDTree)

/-- Go map read `d.pidTreeCache.m[root]`. -/
def lookupCache (cache : TreeCache) (root : Int) : Option PIDTree :=
  (cache.find? (fun e => e.1 == root)).map (fun e => e.2)

/-- Go map write `d.pidTreeCache.m[root] = tree` (replace if present, add
otherwise). -/
def insertCache (cache : TreeCache) (root : Int) (tree : PIDTree) : TreeCache :=
  if (cache.find? (fun e => e.1 == root)).isSome then
    cache.map (fun e => if e.1 == root then (root, tree) else e)
  else
    (root, tree) :: cache

/-- `Detector.buildPIDTree` (detector.go): return the cached tree for `root`
if present; otherwise build the tree with `walk`, clear the whole cache if it
holds more than 1000 entries, store the new tree, and return it.
The cache is threaded explicitly in place of the `Detector` receiver. -/
def buildPIDTree (cache : TreeCache) (root : Int) (pm : Int → List Int) :
    PIDTree × TreeCache :=
  match lookupCache cache root with
  | some cached => (cached, cache)
  | none =>
    let tree := (walk pm walkFuel root ⟨[], []⟩).tree
    let cache1 := if cache.length > 1000 then [] else cache
    (tree, insertCache cache1 root tree)

/-- `runtime.ContainerMeta` (runtime.go): container id, root pid, pod name and
namespace, command, and the descendant set filled in by the detector
(`PIDSet map[int]bool`, modelled as `PIDTree`).  `Comm` and `CreatedAt` play
no role in the claims and are omitted. -/
structure ContainerMeta where
  id : String
  pid : Int
  podName : String
  podNS : String
  pidSet : PIDTree
deriving Repr, DecidableEq

/-- One `/proc` entry as `DetectZombies` reads it from `proc.Stat()` and
`proc.CmdLine()`: pid, ppid, state character, command line. -/
structure ProcEntry where
  pid : Int
  ppid : Int
  state : String
  cmdline : String
deriving Repr, DecidableEq

/-- `detector.ZombieInfo` (detector.go). -/
structure ZombieInfo where
  pid : Int
  ppid : Int
  cmdline : String
  container : Option ContainerMeta
  isInContainer : Bool
deriving Repr, DecidableEq

/-- The `parentMap` built in `DetectZombies`: iterating the snapshot, each
entry's pid is appended to `parentMap[ppid]`, so `parentMap p` is the list of
pids of snapshot entries whose ppid is `p`, in snapshot order. -/
def buildParentMap (procs : List ProcEntry) : Int → List Int :=
  fun p => (procs.filter (fun e => e.ppid == p)).map (fun e => e.pid)

/-- The zombie collection of `DetectZombies`: snapshot entries whose state
is `Z`. -/
def collectZombies (procs : List ProcEntry) : List ProcEntry :=
  procs.filter (fun e => e.state == "Z")

/-- `Detector.getContainerPIDTrees` (detector.go): for every listed container,
build its PID tree from the root pid and store it in the container's `PIDSet`.
The source fans the builds out over a worker pool sharing the one cache; the
model runs them in listing order, one legal schedule of that pool. -/
def getContainerPIDTrees (cache : TreeCache) (containers : List ContainerMeta)
    (pm : Int → List Int) : List ContainerMeta × TreeCache :=
  containers.foldl
    (fun acc c =>
      let r := buildPIDTree acc.2 c.pid pm
      (acc.1 ++ [{ c with pidSet := r.1 }], r.2))
    ([], cache)

/-- The `pidToContainer` index of `DetectZombies`: every pid of every
container's `PIDSet` is mapped to that container, later containers
overwriting earlier ones (Go map writes in iteration order), so a lookup
returns the last container whose set holds the pid. -/
def pidToContainer (containers : List ContainerMeta) (p : Int) : Option ContainerMeta :=
  containers.reverse.find? (fun c => c.pidSet.contains p)

/-- The attribution step of `DetectZombies` for one zombie: by pid first,
then by ppid, otherwise a host zombie with no container. -/
def attributeZombie (p2c : Int → Option ContainerMeta) (e : ProcEntry) : ZombieInfo :=
  match p2c e.pid with
  | some c => ⟨e.pid, e.ppid, e.cmdline, some c, true⟩
  | none =>
    match p2c e.ppid with
    | some c => ⟨e.pid, e.ppid, e.cmdline, some c, true⟩
    | none => ⟨e.pid, e.ppid, e.cmdline, none, false⟩

/-- `Detector.DetectZombies` (detector.go), with the process snapshot and the
container listing as inputs and the pid-tree cache threaded in place of the
`Detector` receiver: build the parent map and the zombie set in one traversal,
return early when there is no zombie, otherwise build the container PID trees,
index pids to containers, and attribute every zombie. -/
def detectZombies (cache : TreeCache) (procs : List ProcEntry)
    (containers : List ContainerMeta) : List ZombieInfo × TreeCache :=
  let pm := buildParentMap procs
  let zombies := collectZombies procs
  if zombies.isEmpty then ([], cache)
  else
    let r := getContainerPIDTrees cache containers pm
    (zombies.map (attributeZombie (pidToContainer r.1)), r.2)

/-- The cleaner configuration fields the claims touch
(`config.Cleaner.CheckInterval`, `.ConfirmCount`, `.DryRun`); durations and
times are modelled as integers. -/
structure CleanerConfig where
  checkInterval : Int
  confirmCount : Int
  dryRun : Bool
deriving Repr, DecidableEq

/-- `cleaner.ContainerState` (cleaner.go). -/
structure ContainerState where
  containerID : String
  zombieCount : Int
  lastDetected : Int
  inProgress : Bool
  podName : String
  podNamespace : String
deriving Repr, DecidableEq

/-- The `containerStates map[string]*ContainerState` of the cleaner, as an
association list. -/
abbrev StateMap := List (String × ContainerState)

/-- The compiled whitelist: each compiled regex is modelled as the predicate
`MatchString` gives, a function from pod name to match success. -/
abbrev Whitelist := List (String → Bool)

/-- `Cleaner.isWhitelisted` (cleaner.go): true when any compiled whitelist
regex matches the pod name. -/
def isWhitelisted (wl : Whitelist) (podName : String) : Bool :=
  wl.any (fun regexMatch => regexMatch podName)

/-- Go map read `c.containerStates[containerID]`. -/
def lookupState (m : StateMap) (cid : String) : Option ContainerState :=
  (m.find? (fun e => e.1 == cid)).map (fun e => e.2)

/-- Go map write `c.containerStates[containerID] = state`. -/
def setState (m : StateMap) (cid : String) (st : ContainerState) : StateMap :=
  if (m.find? (fun e => e.1 == cid)).isSome then
    m.map (fun e => if e.1 == cid then (cid, st) else e)
  else
    m ++ [(cid, st)]

/-- Go map delete `delete(c.containerStates, containerID)`. -/
def eraseState (m : StateMap) (cid : String) : StateMap :=
  m.filter (fun e => !(e.1 == cid))

/-- The loop body of `Cleaner.processContainerZombies` (cleaner.go) for one
container: skip empty groups; skip whitelisted pods; create the state on first
sighting; skip containers already in progress; refresh `LastDetected`,
increment `ZombieCount`; at or above the confirmation threshold either reset
the counter to zero when some zombie has ppid 1 (orphan), or dispatch the
cleanup task.  Returns the new state entry (if any) and whether a cleanup
task was dispatched (`go c.cleanupContainer(...)`); the dispatched task has
not yet run, so `InProgress` is not set here, matching the source. -/
def processOne (cfg : CleanerConfig) (wl : Whitelist) (now : Int)
    (prev : Option ContainerState) (containerID : String)
    (zombies : List ZombieInfo) : Option ContainerState × Bool :=
  match zombies with
  | [] => (prev, false)
  | z :: _ =>
    match z.container with
    | none => (prev, false)
    | some container =>
      if isWhitelisted wl container.podName then (prev, false)
      else
        let state := prev.getD ⟨containerID, 0, 0, false, container.podName, container.podNS⟩
        if state.inProgress then (some state, false)
        else
          let state1 := { state with lastDetected := now, zombieCount := state.zombieCount + 1 }
          if state1.zombieCount ≥ cfg.confirmCount then
            if zombies.any (fun zz => zz.ppid == 1) then
              (some { state1 with zombieCount := 0 }, false)
            else
              (some state1, true)
          else
            (some state1, false)

/-- Container id a zombie is grouped under in `runCheck` (cleaner.go):
`zombie.Container.ID` for zombies with `IsInContainer` set. -/
def zombieContainerID (z : ZombieInfo) : Option String :=
  if z.isInContainer then z.container.map (fun c => c.id) else none

/-- The `containerZombies` grouping of `runCheck`: container ids in order of
first appearance, each with the zombies attributed to it, in order. -/
def groupedZombies (zs : List ZombieInfo) : List (String × List ZombieInfo) :=
  ((zs.filterMap zombieContainerID).dedup).map
    (fun cid => (cid, zs.filter (fun z => zombieContainerID z == some cid)))

/-- `Cleaner.processContainerZombies` (cleaner.go) over the whole grouped map:
fold the per-container body over the groups, collecting the ids whose cleanup
task was dispatched this tick. -/
def processContainerZombies (cfg : CleanerConfig) (wl : Whitelist) (now : Int)
    (states : StateMap) (grouped : List (String × List ZombieInfo)) :
    StateMap × List String :=
  grouped.foldl
    (fun acc g =>
      let r := processOne cfg wl now (lookupState acc.1 g.1) g.1 g.2
      let m := match r.1 with
        | some st => setState acc.1 g.1 st
        | none => acc.1
      (m, if r.2 then acc.2 ++ [g.1] else acc.2))
    (states, [])

/-- `Cleaner.cleanupOldStates` (cleaner.go): delete every entry that is not
in progress and whose last detection lies more than `3 * CheckInterval` in
the past; i.e. keep an entry iff it is in progress or recent enough. -/
def cleanupOldStates (checkInterval now : Int) (states : StateMap) : StateMap :=
  states.filter (fun e => e.2.inProgress || !(decide (now - e.2.lastDetected > 3 * checkInterval)))

/-- `Cleaner.runCheck` (cleaner.go), with the detection outcome as input
(`none` models a `DetectZombies` error): on error, count the failure and
return at once — in particular `cleanupOldStates` does not run; on an empty
zombie list, reap old states and return; otherwise group the in-container
zombies, run the confirmation state machine, then reap old states.  Returns
the new state map and the container ids dispatched for cleanup. -/
def runCheck (cfg : CleanerConfig) (wl : Whitelist) (now : Int)
    (states : StateMap) (detectResult : Option (List ZombieInfo)) :
    StateMap × List String :=
  match detectResult with
  | none => (states, [])
  | some zombies =>
    if zombies.isEmpty then (cleanupOldStates cfg.checkInterval now states, [])
    else
      let r := processContainerZombies cfg wl now states (groupedZombies zombies)
      (cleanupOldStates cfg.checkInterval now r.1, r.2)

/-- `Cleaner.killContainerShim` (cleaner.go), with the pids `pgrep` found for
the two shim patterns as input: the call returns without error exactly when
at least one shim pid was found (kill failures are only logged). -/
def killContainerShim (shimPids : List String) : Bool :=
  !shimPids.isEmpty

/-- Observable outcome of one `Cleaner.cleanupContainer` run: the state map
when the function has returned, and which of the two counters
(`cleanup_failures{reason="cleanup_failed"}`, `containers_cleaned`) were
incremented. -/
structure CleanupOutcome where
  states : StateMap
  cleanupFailedInc : Bool
  containersCleanedInc : Bool
deriving Repr, DecidableEq

/-- `Cleaner.cleanupContainer` (cleaner.go), with the outcome of
`removeContainer` and the shim pids found by `killContainerShim` as inputs.
The source sets `InProgress` under the lock, registers
`defer { delete(c.containerStates, containerID) }`, and then: on dry run,
returns; on remove success, counts a cleaned container; on remove failure it
falls back to the shim kill, counting a cleaned container when a shim was
found and a `cleanup_failed` failure when none was.  The deferred delete runs
on every one of these return paths, so the state field is the map with the
entry erased in every case. -/
def cleanupContainer (states : StateMap) (containerID : String)
    (dryRun removeOk : Bool) (shimPids : List String) : CleanupOutcome :=
  let statesAfter := eraseState states containerID
  if dryRun then ⟨statesAfter, false, false⟩
  else if removeOk then ⟨statesAfter, false, true⟩
  else if killContainerShim shimPids then ⟨statesAfter, false, true⟩
  else ⟨statesAfter, true, false⟩

/-- Interleaving model of one container's confirmation state and its cleanup
tasks (cleaner.go).  `entry` is the container's slot in `containerStates`;
`pending` counts cleanup goroutines that `processContainerZombies` has
spawned with `go c.cleanupContainer(...)` but that the scheduler has not yet
run (the source sets `InProgress` inside the goroutine, not at the spawn);
`running` counts goroutines that have set `InProgress` and not yet returned. -/
structure TaskSysState where
  entry : Option ContainerState
  pending : Nat
  running : Nat
deriving Repr, DecidableEq

/-- Events of the interleaving model: a tick sighting of the container
(with or without an orphan zombie), the start of a spawned cleanup goroutine
(its first lock acquisition, setting `InProgress`), and the return of a
running goroutine (its deferred delete). -/
inductive CleanupEvent where
  | sight (orphan : Bool)
  | start
  | finish
deriving Repr, DecidableEq

/-- A fixed container for the single-container runs. -/
def sampleMeta : ContainerMeta := ⟨"c1", 10, "pod-a", "ns-a", []⟩

/-- A zombie attributed to `sampleMeta`, an orphan (ppid 1) on demand. -/
def sampleZombie (orphan : Bool) : ZombieInfo :=
  ⟨42, if orphan then 1 else 7, "zproc", some sampleMeta, true⟩

/-- One step of the interleaving model.  A `sight` runs the per-container
loop body of `processContainerZombies` for a one-zombie group of `sampleMeta`
and records a spawned goroutine when it dispatches; a `start` (enabled while
a goroutine is pending) sets `InProgress` on the entry, as the head of
`cleanupContainer` does; a `finish` (enabled while a goroutine runs) deletes
the entry, as the deferred delete does.  Mutex-serialized sections are whole
steps; the order of steps is the scheduler's choice, so any event list is a
legal schedule. -/
def taskStep (cfg : CleanerConfig) (wl : Whitelist) (now : Int)
    (s : TaskSysState) : CleanupEvent → Option TaskSysState
  | .sight orphan =>
    let r := processOne cfg wl now s.entry "c1" [sampleZombie orphan]
    some ⟨r.1, s.pending + (if r.2 then 1 else 0), s.running⟩
  | .start =>
    if s.pending = 0 then none
    else some ⟨s.entry.map (fun st => { st with inProgress := true }),
      s.pending - 1, s.running + 1⟩
  | .finish =>
    if s.running = 0 then none
    else some ⟨none, s.pending, s.running - 1⟩

/-- Run a schedule of events from a state; `none` when an event was not
enabled. -/
def runEvents (cfg : CleanerConfig) (wl : Whitelist) (now : Int) :
    TaskSysState → List CleanupEvent → Option TaskSysState
  | s, [] => some s
  | s, e :: es =>
    match taskStep cfg wl now s e with
    | none => none
    | some s1 => runEvents cfg wl now s1 es

/-- A configuration with confirmation threshold 1, detection every 10 units,
no dry run. -/
def cfgOne : CleanerConfig := ⟨10, 1, false⟩

/-- The empty parent map (no process has children). -/
def emptyParentMap : Int → List Int := fun _ => []

/-- Cache contents after `n` `buildPIDTree` calls on the roots `1, …, n`
under the empty parent map, starting from the empty cache. -/
def iterCache : Nat → TreeCache
  | 0 => []
  | n + 1 => (buildPIDTree (iterCache n) ((n + 1 : Nat) : Int) emptyParentMap).2

/-- A parent map in which pid 1 has the single child pid 0. -/
def pmZeroChild : Int → List Int := fun p => if p = 1 then [0] else []

/-- Snapshot for detection pass one of the stale-cache scenario: container
root 10 has the child 20, and an unrelated zombie 99 makes the pass build the
container trees. -/
def procsPass1 : List ProcEntry :=
  [⟨1, 0, "S", "init"⟩, ⟨10, 1, "S", "entry"⟩, ⟨20, 10, "S", "worker"⟩,
   ⟨99, 98, "Z", "stray"⟩]

/-- Snapshot for detection pass two: pid 20 is no longer a descendant of 10
(its parent is now 77) and has become a zombie. -/
def procsPass2 : List ProcEntry :=
  [⟨1, 0, "S", "init"⟩, ⟨10, 1, "S", "entry"⟩, ⟨20, 77, "Z", "worker"⟩]

/-- The container of the stale-cache scenario, root pid 10, before the
detector fills its descendant set. -/
def containerC : ContainerMeta := ⟨"c1", 10, "pod-a", "ns-a", []⟩

/-- Pass one of the stale-cache scenario, from an empty cache. -/
def passOne : List ZombieInfo × TreeCache :=
  detectZombies [] procsPass1 [containerC]

/-- Pass two of the stale-cache scenario, run with the cache pass one left
behind. -/
def passTwo : List ZombieInfo × TreeCache :=
  detectZombies passOne.2 procsPass2 [containerC]

/-- The descendant set of root 10 rebuilt from the second snapshot alone
(empty cache): the set claim C3 compares attribution against. -/
def freshTreePass2 : PIDTree :=
  (buildPIDTree [] 10 (buildParentMap procsPass2)).1

/-- Snapshot for the attribution witness: container root 10 with zombie
child 20. -/
def procsW : List ProcEntry :=
  [⟨10, 1, "S", "entry"⟩, ⟨20, 10, "Z", "worker"⟩]

/-- The report the detector produces for zombie 20 of `procsW`: attributed by
pid to the container whose filled descendant set is `[20, 10]`. -/
def zombieW : ZombieInfo :=
  ⟨20, 10, "worker", some { containerC with pidSet := [20, 10] }, true⟩

/-- A whitelist whose single pattern matches exactly the pod name
`pod-a` (the pod of `sampleMeta`). -/
def wlPodA : Whitelist := [fun pod => pod == "pod-a"]

/-- A state entry that has already reached confirmation count 3, not in
progress, last seen at time 50. -/
def stateAtThreshold : ContainerState := ⟨"c1", 3, 50, false, "pod-a", "ns-a"⟩

/-- A stale state entry: last seen at time 0, not in progress. -/
def staleState : ContainerState := ⟨"c1", 1, 0, false, "pod-b", "ns-b"⟩

/-- An in-progress state entry, last seen at time 0. -/
def inProgressState : ContainerState := ⟨"c2", 2, 0, true, "pod-c", "ns-c"⟩

/-- A state entry used by the cleanup-task counterexample. -/
def sampleState : ContainerState := ⟨"c1", 3, 60, true, "pod-a", "ns-a"⟩

/-- Parent index of the first detection pass in the stale-cache scenario for
the tree build alone: 10 has the child 20. -/
def pmFirst : Int → List Int := fun p => if p = 10 then [20] else []

/-- Parent index of the second pass: 10 now has the child 30. -/
def pmSecond : Int → List Int := fun p => if p = 10 then [30] else []

/-- First tree build, from an empty cache. -/
def callFirst : PIDTree × TreeCache := buildPIDTree [] 10 pmFirst

/-- Second tree build for the same root, keeping the detector cache of the
first call but using the second parent index. -/
def callSecond : PIDTree × TreeCache := buildPIDTree callFirst.2 10 pmSecond

/-- A cache is well formed when every cached tree contains its root; fresh
walks establish this and `buildPIDTree` preserves it. -/
def cacheWellFormed (cache : TreeCache) : Prop :=
  ∀ e ∈ cache, e.2.contains e.1 = true

/-- The container `procsW` yields once the detector fills its descendant
set. -/
def containerW : ContainerMeta := ⟨"c1", 10, "pod-a", "ns-a", [20, 10]⟩

/-! ## Lemmas about the tree walk -/

/-- The walk only ever adds pids to the tree. -/
theorem walk_tree_subset (pm : Int → List Int) :
    ∀ (f : Nat) (pid : Int) (s : WalkState), s.tree ⊆ (walk pm f pid s).tree := by
  intro f
  induction f with
  | zero => intro pid s; simp [walk]
  | succ f ih =>
    intro pid s
    have hfold : ∀ (l : List Int) (t : WalkState),
        t.tree ⊆ ((l.foldl
          (fun acc c => if 0 ≤ c ∧ c ≤ pidMax then walk pm f c acc else acc) t).tree) := by
      intro l
      induction l with
      | nil => intro t; simp
      | cons c cs ihl =>
        intro t
        simp only [List.foldl_cons]
        refine List.Subset.trans ?_ (ihl _)
        by_cases hc : 0 ≤ c ∧ c ≤ pidMax
        · rw [if_pos hc]; exact ih c t
        · rw [if_neg hc]; exact fun x hx => hx
    simp only [walk]
    by_cases hv : s.visited.contains pid = true
    · rw [if_pos hv]; exact fun x hx => hx
    · rw [if_neg hv]
      by_cases hb : pid < 0 ∨ pid > pidMax
      · rw [if_pos hb]
        exact List.subset_cons_self pid s.tree
      · rw [if_neg hb]
        exact List.Subset.trans (List.subset_cons_self pid s.tree)
          (hfold (pm pid) ⟨pid :: s.visited, pid :: s.tree⟩)

/-- The inner children loop only ever adds pids to the tree. -/
theorem foldlWalk_tree_subset (pm : Int → List Int) (f : Nat) :
    ∀ (l : List Int) (t : WalkState),
      t.tree ⊆ ((l.foldl
        (fun acc c => if 0 ≤ c ∧ c ≤ pidMax then walk pm f c acc else acc) t).tree) := by
  intro l
  induction l with
  | nil => intro t; simp
  | cons c cs ihl =>
    intro t
    simp only [List.foldl_cons]
    refine List.Subset.trans ?_ (ihl _)
    by_cases hc : 0 ≤ c ∧ c ≤ pidMax
    · rw [if_pos hc]; exact walk_tree_subset pm f c t
    · rw [if_neg hc]; exact fun x hx => hx

/-- The walk keeps `visited` and `tree` in lockstep: the source writes both
maps at the single spot where a pid is marked. -/
theorem walk_visited_eq_tree (pm : Int → List Int) :
    ∀ (f : Nat) (pid : Int) (s : WalkState), s.visited = s.tree →
      (walk pm f pid s).visited = (walk pm f pid s).tree := by
  intro f
  induction f with
  | zero => intro pid s h; simpa [walk] using h
  | succ f ih =>
    intro pid s h
    have hfold : ∀ (l : List Int) (t : WalkState), t.visited = t.tree →
        ((l.foldl
          (fun acc c => if 0 ≤ c ∧ c ≤ pidMax then walk pm f c acc else acc) t).visited =
          (l.foldl
          (fun acc c => if 0 ≤ c ∧ c ≤ pidMax then walk pm f c acc else acc) t).tree) := by
      intro l
      induction l with
      | nil => intro t ht; simpa using ht
      | cons c cs ihl =>
        intro t ht
        simp only [List.foldl_cons]
        refine ihl _ ?_
        by_cases hc : 0 ≤ c ∧ c ≤ pidMax
        · rw [if_pos hc]; exact ih c t ht
        · rwa [if_neg hc]
    simp only [walk]
    by_cases hv : s.visited.contains pid = true
    · rwa [if_pos hv]
    · rw [if_neg hv]
      by_cases hb : pid < 0 ∨ pid > pidMax
      · rw [if_pos hb]; simpa using h
      · rw [if_neg hb]
        exact hfold (pm pid) ⟨pid :: s.visited, pid :: s.tree⟩ (by simpa using h)

/-- Everything the walk adds to the tree is the pid it was called on or lies
within `[0, pidMax]`: recursive calls are guarded by the child bound check. -/
theorem walk_tree_mem (pm : Int → List Int) :
    ∀ (f : Nat) (pid : Int) (s : WalkState) (x : Int),
      x ∈ (walk pm f pid s).tree → x ∈ s.tree ∨ x = pid ∨ (0 ≤ x ∧ x ≤ pidMax) := by
  intro f
  induction f with
  | zero => intro pid s x h; simp only [walk] at h; exact .inl h
  | succ f ih =>
    intro pid s x
    have hfold : ∀ (l : List Int) (t : WalkState) (x : Int),
        x ∈ ((l.foldl
          (fun acc c => if 0 ≤ c ∧ c ≤ pidMax then walk pm f c acc else acc) t).tree) →
        x ∈ t.tree ∨ (0 ≤ x ∧ x ≤ pidMax) := by
      intro l
      induction l with
      | nil => intro t x h; exact .inl (by simpa using h)
      | cons c cs ihl =>
        intro t x h
        simp only [List.foldl_cons] at h
        rcases ihl _ x h with h1 | h2
        · by_cases hc : 0 ≤ c ∧ c ≤ pidMax
          · rw [if_pos hc] at h1
            rcases ih c t x h1 with h3 | h4 | h5
            · exact .inl h3
            · exact .inr (h4 ▸ hc)
            · exact .inr h5
          · rw [if_neg hc] at h1; exact .inl h1
        · exact .inr h2
    intro h
    simp only [walk] at h
    by_cases hv : s.visited.contains pid = true
    · rw [if_pos hv] at h; exact .inl h
    · rw [if_neg hv] at h
      by_cases hb : pid < 0 ∨ pid > pidMax
      · rw [if_pos hb] at h
        rcases List.mem_cons.mp h with h1 | h2
        · exact .inr (.inl h1)
        · exact .inl h2
      · rw [if_neg hb] at h
        rcases hfold (pm pid) ⟨pid :: s.visited, pid :: s.tree⟩ x h with h1 | h2
        · rcases List.mem_cons.mp h1 with h3 | h4
          · exact .inr (.inl h3)
          · exact .inl h4
        · exact .inr (.inr h2)

/-- With any fuel at all, the walk puts the pid it starts from into the tree
(its first action after the visited check is `tree[pid] = true`). -/
theorem walk_root_mem (pm : Int → List Int) (f : Nat) (pid : Int) (s : WalkState)
    (hvt : s.visited = s.tree) (hf : 1 ≤ f) : pid ∈ (walk pm f pid s).tree := by
  cases f with
  | zero => omega
  | succ f =>
    simp only [walk]
    by_cases hv : s.visited.contains pid = true
    · rw [if_pos hv]
      rw [← hvt]
      exact List.elem_iff.mp hv
    · rw [if_neg hv]
      by_cases hb : pid < 0 ∨ pid > pidMax
      · rw [if_pos hb]; exact List.mem_cons_self pid s.tree
      · rw [if_neg hb]
        exact foldlWalk_tree_subset pm f (pm pid) ⟨pid :: s.visited, pid :: s.tree⟩
          (List.mem_cons_self pid s.tree)

/-! ## Lemmas about the pid-tree cache -/

/-- A cache lookup misses when no entry carries the root as key. -/
theorem lookupCache_eq_none (cache : TreeCache) (root : Int)
    (h : ∀ e ∈ cache, e.1 ≠ root) : lookupCache cache root = none := by
  unfold lookupCache
  have hf : cache.find? (fun e => e.1 == root) = none :=
    List.find?_eq_none.mpr (fun e he => by simpa using h e he)
  rw [hf]
  rfl

/-- A cache hit returns a tree stored under the looked-up root. -/
theorem lookupCache_some (cache : TreeCache) (root : Int) (t : PIDTree)
    (h : lookupCache cache root = some t) : ∃ e ∈ cache, e.1 = root ∧ e.2 = t := by
  unfold lookupCache at h
  cases hf : cache.find? (fun e => e.1 == root) with
  | none => rw [hf] at h; simp at h
  | some e =>
    rw [hf] at h
    simp at h
    refine ⟨e, List.mem_of_find?_eq_some hf, ?_, h⟩
    have hp := List.find?_some hf
    simpa using hp

/-- Inserting under a fresh root prepends the entry. -/
theorem insertCache_not_mem (cache : TreeCache) (root : Int) (t : PIDTree)
    (h : ∀ e ∈ cache, e.1 ≠ root) : insertCache cache root t = (root, t) :: cache := by
  unfold insertCache
  rw [if_neg]
  rw [List.find?_eq_none.mpr]
  · simp
  · intro e he; simpa using h e he

/-- Inserting grows the cache by at most one entry. -/
theorem insertCache_length_le (cache : TreeCache) (root : Int) (t : PIDTree) :
    (insertCache cache root t).length ≤ cache.length + 1 := by
  unfold insertCache
  by_cases hp : (cache.find? (fun e => e.1 == root)).isSome = true
  · rw [if_pos hp, List.length_map]; omega
  · rw [if_neg hp, List.length_cons]

/-- Every entry of the cache after an insert is the inserted pair or one of
the old entries. -/
theorem insertCache_mem (cache : TreeCache) (root : Int) (t : PIDTree)
    (e : Int × PIDTree) (he : e ∈ insertCache cache root t) :
    e = (root, t) ∨ e ∈ cache := by
  unfold insertCache at he
  by_cases hp : (cache.find? (fun e => e.1 == root)).isSome = true
  · rw [if_pos hp] at he
    obtain ⟨a, ha, hae⟩ := List.mem_map.mp he
    by_cases har : (a.1 == root) = true
    · rw [if_pos har] at hae; exact .inl hae.symm
    · rw [if_neg har] at hae; exact .inr (hae ▸ ha)
  · rw [if_neg hp] at he
    rcases List.mem_cons.mp he with h1 | h2
    · exact .inl h1
    · exact .inr h2

/-- Claim C10 (amended): a miss makes `buildPIDTree` perform a fresh walk of the index it is
given: the returned set is derived from that index alone. -/
theorem fresh_tree_on_cache_miss (cache : TreeCache) (root : Int)
    (pm : Int → List Int) (hmiss : lookupCache cache root = none) :
    (buildPIDTree cache root pm).1 = (walk pm walkFuel root ⟨[], []⟩).tree := by
  unfold buildPIDTree
  rw [hmiss]

/-- Claim C10 witness: with an empty cache the call on
root 10 returns the walk of the given index. -/
theorem fresh_tree_on_cache_miss_witness :
    (buildPIDTree [] 10 pmZeroChild).1 = (walk pmZeroChild walkFuel 10 ⟨[], []⟩).tree :=
  fresh_tree_on_cache_miss [] 10 pmZeroChild rfl

/-- Claim C10 counterexample: a second `buildPIDTree` call for the same root on the same detector
returns the cached set from the first call even though the parent index has
changed: pid 30 is the child of 10 in the second index, yet the returned set
is the first call tree and misses 30, while a build from the second index
alone holds it.  This refutes the claim that the second call returns the set
derived from the second index. -/
theorem stale_cache_returns_old_tree_cex :
    callSecond.1 = callFirst.1 ∧
    ¬((30 : Int) ∈ callSecond.1) ∧
    (30 : Int) ∈ (buildPIDTree [] 10 pmSecond).1 := by
  refine ⟨by decide, by decide, by decide⟩

/-- Claim C5 (amended): every member of a freshly built descendant set is the root itself or lies
within `[0, pidMax]`: the child guard in the source checks `child >= 0`, not
`child >= 1`, and the root is inserted before any bound check.  This is the
provable form of the claimed `[1, pidMax]` bound. -/
theorem descendants_subset_root_or_bounds (root : Int) (pm : Int → List Int)
    (x : Int) (hx : x ∈ (buildPIDTree [] root pm).1) :
    x = root ∨ (0 ≤ x ∧ x ≤ pidMax) := by
  have hb : (buildPIDTree [] root pm).1 = (walk pm walkFuel root ⟨[], []⟩).tree := by
    unfold buildPIDTree lookupCache
    rfl
  rw [hb] at hx
  rcases walk_tree_mem pm walkFuel root ⟨[], []⟩ x hx with h | h | h
  · simp at h
  · exact .inl h
  · exact .inr h

/-- Claim C5 witness, at root 1 with child 0. -/
theorem descendants_subset_root_or_bounds_witness :
    (1 : Int) ∈ (buildPIDTree [] 1 pmZeroChild).1 ∧
    ((1 : Int) = 1 ∨ (0 ≤ (1 : Int) ∧ (1 : Int) ≤ pidMax)) :=
  ⟨by decide, descendants_subset_root_or_bounds 1 pmZeroChild 1 (by decide)⟩

/-- Claim C5 counterexample: pid 0 lies outside `[1, pidMax]` yet is inserted into the descendant set
of root 1 when the index lists 0 as a child of 1: the child guard of the
source admits 0.  This refutes the claimed `[1, pidMax]` bound. -/
theorem pid_zero_in_descendants_cex :
    (0 : Int) ∈ (buildPIDTree [] 1 pmZeroChild).1 ∧ ¬(1 ≤ (0 : Int)) := by
  refine ⟨by decide, by decide⟩

/-- A fresh `buildPIDTree` result contains the root it was built for. -/
theorem buildPIDTree_root_mem (cache : TreeCache) (root : Int)
    (pm : Int → List Int) (hc : cacheWellFormed cache) :
    root ∈ (buildPIDTree cache root pm).1 := by
  unfold buildPIDTree
  cases hl : lookupCache cache root with
  | some t =>
    obtain ⟨e, he, her, het⟩ := lookupCache_some cache root t hl
    have := hc e he
    rw [her, het] at this
    exact List.elem_iff.mp this
  | none =>
    exact walk_root_mem pm walkFuel root ⟨[], []⟩ rfl (by norm_num [walkFuel])

/-- `buildPIDTree` keeps the cache well formed: a stored tree always contains
its root. -/
theorem buildPIDTree_preserves_wf (cache : TreeCache) (root : Int)
    (pm : Int → List Int) (hc : cacheWellFormed cache) :
    cacheWellFormed (buildPIDTree cache root pm).2 := by
  have hroot := buildPIDTree_root_mem cache root pm hc
  cases hl : lookupCache cache root with
  | some t =>
    unfold buildPIDTree
    rw [hl]
    exact hc
  | none =>
    unfold buildPIDTree at hroot ⊢
    rw [hl] at hroot ⊢
    intro e he
    rcases insertCache_mem _ root _ e he with h1 | h2
    · rw [h1]
      exact List.elem_iff.mpr hroot
    · by_cases hb : cache.length > 1000
      · rw [if_pos hb] at h2; simp at h2
      · rw [if_neg hb] at h2; exact hc e h2

/-- Claim C6: every container coming out of `getContainerPIDTrees` has its root pid in
its filled descendant set (given a well-formed starting cache, as the empty
cache of a fresh detector is). -/
theorem root_pid_mem_descendants (cache : TreeCache)
    (containers : List ContainerMeta) (pm : Int → List Int)
    (hc : cacheWellFormed cache) (c : ContainerMeta)
    (hmem : c ∈ (getContainerPIDTrees cache containers pm).1) :
    c.pid ∈ c.pidSet := by
  unfold getContainerPIDTrees at hmem
  suffices h : ∀ (cs : List ContainerMeta) (acc : List ContainerMeta × TreeCache),
      cacheWellFormed acc.2 → (∀ d ∈ acc.1, d.pid ∈ d.pidSet) →
      ∀ d ∈ (cs.foldl
        (fun acc c =>
          let r := buildPIDTree acc.2 c.pid pm
          (acc.1 ++ [{ c with pidSet := r.1 }], r.2)) acc).1, d.pid ∈ d.pidSet by
    exact h containers ([], cache) hc (by simp) c hmem
  intro cs
  induction cs with
  | nil => intro acc hwf hall d hd; exact hall d hd
  | cons c0 cs ih =>
    intro acc hwf hall d hd
    simp only [List.foldl_cons] at hd
    refine ih _ (buildPIDTree_preserves_wf acc.2 c0.pid pm hwf) ?_ d hd
    intro d hd
    rcases List.mem_append.mp hd with h1 | h2
    · exact hall d h1
    · rw [List.mem_singleton.mp h2]
      exact buildPIDTree_root_mem acc.2 c0.pid pm hwf

/-- Claim C6 witness: the container of `procsW` comes
out with descendant set `[20, 10]` holding its root pid 10. -/
theorem root_pid_mem_descendants_witness :
    containerW ∈ (getContainerPIDTrees [] [containerC] (buildParentMap procsW)).1 ∧
    containerW.pid ∈ containerW.pidSet :=
  ⟨by decide, root_pid_mem_descendants [] [containerC] (buildParentMap procsW)
    (fun e he => by simp at he) containerW (by decide)⟩

/-- After `n ≤ 1001` builds on the distinct fresh roots `1, …, n` the cache
holds exactly `n` entries, keyed by those roots: up to the 1001st call the
eviction guard `len > 1000` never fires. -/
theorem iterCache_spec : ∀ n : Nat, n ≤ 1001 →
    (iterCache n).length = n ∧ ∀ e ∈ iterCache n, 1 ≤ e.1 ∧ e.1 ≤ (n : Int) := by
  intro n
  induction n with
  | zero => intro _; refine ⟨rfl, ?_⟩; intro e he; simp [iterCache] at he
  | succ n ih =>
    intro hn
    obtain ⟨hlen, hkeys⟩ := ih (by omega)
    have hfresh : ∀ e ∈ iterCache n, e.1 ≠ ((n + 1 : Nat) : Int) := by
      intro e he
      have h1 := hkeys e he
      push_cast
      omega
    have hmiss : lookupCache (iterCache n) ((n + 1 : Nat) : Int) = none :=
      lookupCache_eq_none _ _ hfresh
    have hstep : iterCache (n + 1) =
        (((n + 1 : Nat) : Int),
          (walk emptyParentMap walkFuel ((n + 1 : Nat) : Int) ⟨[], []⟩).tree) :: iterCache n := by
      show (buildPIDTree (iterCache n) ((n + 1 : Nat) : Int) emptyParentMap).2 = _
      unfold buildPIDTree
      rw [hmiss]
      have hno : ¬((iterCache n).length > 1000) := by omega
      rw [if_neg hno]
      exact insertCache_not_mem _ _ _ hfresh
    constructor
    · rw [hstep, List.length_cons, hlen]
    · intro e he
      rw [hstep] at he
      rcases List.mem_cons.mp he with h1 | h2
      · rw [h1]
        constructor
        · push_cast; omega
        · push_cast; omega
      · have h3 := hkeys e h2
        constructor
        · exact h3.1
        · push_cast
          omega

/-- Claim C8 counterexample: after the 1001st `buildPIDTree` call on distinct roots the cache holds
1001 entries: the eviction guard only fires strictly above 1000, and runs
before the insert, so the size reaches 1001.  This refutes the claim that
the cache never holds more than 1000 entries after a call. -/
theorem pid_tree_cache_overflow_cex :
    1000 < ((buildPIDTree (iterCache 1000) ((1001 : Nat) : Int) emptyParentMap).2).length := by
  have h := (iterCache_spec 1001 (by omega)).1
  have hstep : iterCache 1001 =
      (buildPIDTree (iterCache 1000) ((1001 : Nat) : Int) emptyParentMap).2 := by
    show iterCache (1000 + 1) = _
    rw [iterCache]
  rw [← hstep, h]
  omega

/-- Claim C8 (amended): a `buildPIDTree` call never leaves more than
1001 entries in the cache (a hit keeps the size, a miss at size at most 1000
adds one entry, and a miss at size above 1000 clears the cache before
inserting). -/
theorem pid_tree_cache_le_1001 (cache : TreeCache) (root : Int)
    (pm : Int → List Int) (h : cache.length ≤ 1001) :
    ((buildPIDTree cache root pm).2).length ≤ 1001 := by
  unfold buildPIDTree
  cases hl : lookupCache cache root with
  | some t => exact h
  | none =>
    simp only
    by_cases hb : cache.length > 1000
    · rw [if_pos hb]
      have := insertCache_length_le ([] : TreeCache) root
        ((walk pm walkFuel root ⟨[], []⟩).tree)
      simp at this
      omega
    · rw [if_neg hb]
      have := insertCache_length_le cache root ((walk pm walkFuel root ⟨[], []⟩).tree)
      omega

/-- Claim C8 witness, at the empty cache. -/
theorem pid_tree_cache_le_1001_witness :
    (([] : TreeCache).length ≤ 1001) ∧
    ((buildPIDTree [] 1 pmZeroChild).2).length ≤ 1001 :=
  ⟨by decide, pid_tree_cache_le_1001 [] 1 pmZeroChild (by decide)⟩

/-! ## Theorems about attribution (DetectZombies) -/

/-- A positive `pidToContainer` lookup only returns containers whose stored
descendant set holds the queried pid. -/
theorem pidToContainer_some (containers : List ContainerMeta) (p : Int)
    (c : ContainerMeta) (h : pidToContainer containers p = some c) :
    p ∈ c.pidSet := by
  unfold pidToContainer at h
  have hp := List.find?_some h
  exact List.elem_iff.mp hp

/-- Claim C3 (amended): attribution soundness with respect to the stored descendant sets: every
report the pass attributes to a container carries a container whose filled
`PIDSet` holds the zombie pid or its parent pid.  (The stored set is the one
`buildPIDTree` returned, which a warm cache may have taken from an earlier
snapshot: see `attribution_stale_cache_cex`.) -/
theorem attribution_sound_stored_sets (cache : TreeCache)
    (procs : List ProcEntry) (containers : List ContainerMeta) (z : ZombieInfo)
    (hz : z ∈ (detectZombies cache procs containers).1)
    (hin : z.isInContainer = true) :
    ∃ c, z.container = some c ∧ (z.pid ∈ c.pidSet ∨ z.ppid ∈ c.pidSet) := by
  unfold detectZombies at hz
  by_cases he : (collectZombies procs).isEmpty = true
  · rw [if_pos he] at hz
    simp at hz
  · rw [if_neg he] at hz
    simp only [List.mem_map] at hz
    obtain ⟨e, he2, hze⟩ := hz
    subst hze
    cases hp : pidToContainer (getContainerPIDTrees cache containers
        (buildParentMap procs)).1 e.pid with
    | some c =>
      refine ⟨c, ?_, .inl ?_⟩
      · simp [attributeZombie, hp]
      · have hpmem := pidToContainer_some _ _ _ hp
        have hpid : (attributeZombie (pidToContainer (getContainerPIDTrees cache
            containers (buildParentMap procs)).1) e).pid = e.pid := by
          simp [attributeZombie, hp]
        rw [hpid]
        exact hpmem
    | none =>
      cases hpp : pidToContainer (getContainerPIDTrees cache containers
          (buildParentMap procs)).1 e.ppid with
      | some c =>
        refine ⟨c, ?_, .inr ?_⟩
        · simp [attributeZombie, hp, hpp]
        · have hpmem := pidToContainer_some _ _ _ hpp
          have hppid : (attributeZombie (pidToContainer (getContainerPIDTrees cache
              containers (buildParentMap procs)).1) e).ppid = e.ppid := by
            simp [attributeZombie, hp, hpp]
          rw [hppid]
          exact hpmem
      | none =>
        exfalso
        simp [attributeZombie, hp, hpp] at hin

/-- Claim C3 witness: the zombie 20 of `procsW`
is attributed to the container whose filled set `[20, 10]` holds its pid. -/
theorem attribution_sound_stored_sets_witness :
    zombieW ∈ (detectZombies [] procsW [containerC]).1 ∧
    ∃ c, zombieW.container = some c ∧
      (zombieW.pid ∈ c.pidSet ∨ zombieW.ppid ∈ c.pidSet) :=
  ⟨by decide, attribution_sound_stored_sets [] procsW [containerC] zombieW
    (by decide) (by decide)⟩

/-- Claim C3 counterexample: run on a detector whose cache still holds the tree of root 10 from the
first snapshot, the second pass attributes zombie 20 (parent 77) to the
container although the descendant set rebuilt from the second snapshot alone
holds neither 20 nor 77.  This refutes the claim that the attributed pid or
ppid always lies in the set built from the same snapshot. -/
theorem attribution_stale_cache_cex :
    (passTwo.1.map (fun z => (z.pid, z.ppid, z.isInContainer,
      z.container.map (fun c => c.id)))) = [(20, 77, true, some "c1")] ∧
    ¬((20 : Int) ∈ freshTreePass2) ∧ ¬((77 : Int) ∈ freshTreePass2) := by
  refine ⟨by decide, by decide, by decide⟩

/-! ## Theorems about the cleaner -/

/-- Claim C2: orphan immunity, stated on the per-container step — whenever some zombie of the group has ppid 1, the
per-container processing never dispatches a cleanup task; and whenever it is
actually reached with the counter meeting the threshold after the increment
(pod not whitelisted, container not in progress), the counter is reset to
zero. -/
theorem orphan_immunity (cfg : CleanerConfig) (wl : Whitelist) (now : Int)
    (prev : Option ContainerState) (cid : String) (zombies : List ZombieInfo)
    (hOrphan : zombies.any (fun z => z.ppid == 1) = true) :
    (processOne cfg wl now prev cid zombies).2 = false ∧
    (∀ c, zombies.head?.bind (fun z => z.container) = some c →
      isWhitelisted wl c.podName = false →
      (∀ st, prev = some st → st.inProgress = false) →
      prev.elim 0 (fun st => st.zombieCount) + 1 ≥ cfg.confirmCount →
      ((processOne cfg wl now prev cid zombies).1.map
        (fun st => st.zombieCount)) = some 0) := by
  cases zombies with
  | nil => simp at hOrphan
  | cons z zs =>
    cases hzc : z.container with
    | none =>
      refine ⟨by simp [processOne, hzc], ?_⟩
      intro c hc
      simp [hzc] at hc
    | some container =>
      constructor
      · simp only [processOne, hzc]
        split_ifs <;> rfl
      · intro c hc hw hip hth
        have hcc : container = c := by
          simp [hzc] at hc
          exact hc
        subst hcc
        simp only [processOne, hzc]
        split_ifs with h1 h2 h3
        · exact absurd h1 (by simp [hw])
        · exfalso
          cases hpv : prev with
          | none =>
            rw [hpv] at h2
            simp at h2
          | some st =>
            rw [hpv] at h2
            simp only [Option.getD_some] at h2
            have := hip st hpv
            rw [this] at h2
            exact absurd h2 (by simp)
        · rfl
        · exfalso
          apply h3
          cases hpv : prev with
          | none =>
            rw [hpv] at hth
            simpa using hth
          | some st =>
            rw [hpv] at hth
            simpa using hth

/-- Claim C2 witness: threshold 1, fresh state, one orphan zombie — no
dispatch and the counter resets to zero. -/
theorem orphan_immunity_witness :
    (processOne cfgOne [] 5 none "c1" [sampleZombie true]).2 = false ∧
    ((processOne cfgOne [] 5 none "c1" [sampleZombie true]).1.map
      (fun st => st.zombieCount)) = some 0 := by
  have h := orphan_immunity cfgOne [] 5 none "c1" [sampleZombie true] (by decide)
  exact ⟨h.1, h.2 sampleMeta (by decide) (by decide)
    (fun st hst => by simp at hst) (by decide)⟩

/-- Claim C7 (amended): a whitelisted pod is skipped before any state update: the per-container
processing returns the previous state untouched and dispatches nothing. -/
theorem whitelist_skips_state_update (cfg : CleanerConfig) (wl : Whitelist)
    (now : Int) (prev : Option ContainerState) (cid : String) (z : ZombieInfo)
    (zs : List ZombieInfo) (c : ContainerMeta) (hc : z.container = some c)
    (hwl : isWhitelisted wl c.podName = true) :
    processOne cfg wl now prev cid (z :: zs) = (prev, false) := by
  simp [processOne, hc, hwl]

/-- Claim C7 witness, at a state already at the threshold. -/
theorem whitelist_skips_state_update_witness :
    processOne ⟨10, 3, false⟩ wlPodA 100 (some stateAtThreshold) "c1"
      [sampleZombie false] = (some stateAtThreshold, false) :=
  whitelist_skips_state_update ⟨10, 3, false⟩ wlPodA 100 (some stateAtThreshold)
    "c1" (sampleZombie false) [] sampleMeta rfl rfl

/-- Claim C7 counterexample: a sighting of a whitelisted container at confirmation count 3 (the
threshold) leaves the counter at 3 and the last-detected time at 50: the
whitelist `continue` runs before the increment, so the counter never grows
and the entry is not refreshed.  This refutes the part of the claim that the
entry's counter may continue to grow on further sightings. -/
theorem whitelist_counter_frozen_cex :
    (processOne ⟨10, 3, false⟩ wlPodA 100 (some stateAtThreshold) "c1"
      [sampleZombie false]).2 = false ∧
    ((processOne ⟨10, 3, false⟩ wlPodA 100 (some stateAtThreshold) "c1"
      [sampleZombie false]).1.map (fun st => st.zombieCount)) = some 3 ∧
    ((processOne ⟨10, 3, false⟩ wlPodA 100 (some stateAtThreshold) "c1"
      [sampleZombie false]).1.map (fun st => st.lastDetected)) = some 50 := by
  refine ⟨by decide, by decide, by decide⟩

/-- Claim C1 (amended): the deferred delete of `cleanupContainer` runs on every exit path, and on
the full-failure path (no dry run, remove failed, no shim process found) the
`cleanup_failed` counter is incremented while the cleaned counter is not. -/
theorem cleanup_failure_increments_and_deletes (states : StateMap)
    (cid : String) (dryRun removeOk : Bool) (shimPids : List String)
    (hfail : dryRun = false ∧ removeOk = false ∧ shimPids = []) :
    (cleanupContainer states cid dryRun removeOk shimPids).states =
      eraseState states cid ∧
    (cleanupContainer states cid dryRun removeOk shimPids).cleanupFailedInc = true ∧
    (cleanupContainer states cid dryRun removeOk shimPids).containersCleanedInc
      = false := by
  obtain ⟨h1, h2, h3⟩ := hfail
  subst h1
  subst h2
  subst h3
  exact ⟨rfl, rfl, rfl⟩

/-- Claim C1 witness. -/
theorem cleanup_failure_increments_and_deletes_witness :
    (cleanupContainer [("c1", sampleState)] "c1" false false []).states =
      eraseState [("c1", sampleState)] "c1" ∧
    (cleanupContainer [("c1", sampleState)] "c1" false false []).cleanupFailedInc
      = true ∧
    (cleanupContainer [("c1", sampleState)] "c1" false false
      []).containersCleanedInc = false :=
  cleanup_failure_increments_and_deletes [("c1", sampleState)] "c1" false false []
    ⟨rfl, rfl, rfl⟩

/-- Claim C1 counterexample: on the full-failure path the cleanup task still deletes the state entry:
the `cleanup_failed` counter is incremented but the container's entry is gone
from the map when the task returns.  This refutes the claim that the entry is
still present so that the next tick retries. -/
theorem cleanup_failed_state_deleted_cex :
    (cleanupContainer [("c1", sampleState)] "c1" false false []).cleanupFailedInc
      = true ∧
    lookupState (cleanupContainer [("c1", sampleState)] "c1" false false
      []).states "c1" = none := by
  refine ⟨by decide, by decide⟩

/-- Claim C4 (code bug): with confirmation threshold 1, two tick sightings of the same container
followed by the starts of the two cleanup goroutines they spawned leave two
cleanup tasks running concurrently for that one container: the source sets
`InProgress` inside the spawned task, not at the spawn, so the second tick's
check sees `InProgress == false` and dispatches again. -/
theorem double_cleanup_dispatch_trace :
    ((runEvents cfgOne [] 0 ⟨none, 0, 0⟩
      [CleanupEvent.sight false, CleanupEvent.sight false,
       CleanupEvent.start, CleanupEvent.start]).map
      (fun s => s.running)) = some 2 := by
  decide

/-- Claim C9 (amended): every entry surviving a tick whose detection completed (returned a zombie
list, possibly empty) is in progress or was seen within the last three check
intervals; contrapositively, a stale, not-in-progress entry is absent after
such a tick.  (A tick whose detection fails returns before the reap: see
`idle_reap_skipped_on_detection_failure_cex`.) -/
theorem survivors_fresh_or_in_progress (cfg : CleanerConfig) (wl : Whitelist)
    (now : Int) (states : StateMap) (zombies : List ZombieInfo) (cid : String)
    (st : ContainerState)
    (hmem : (cid, st) ∈ (runCheck cfg wl now states (some zombies)).1) :
    st.inProgress = true ∨ now - st.lastDetected ≤ 3 * cfg.checkInterval := by
  have hfilter : ∀ (m : StateMap),
      (cid, st) ∈ cleanupOldStates cfg.checkInterval now m →
      st.inProgress = true ∨ now - st.lastDetected ≤ 3 * cfg.checkInterval := by
    intro m hm
    unfold cleanupOldStates at hm
    have hp := (List.mem_filter.mp hm).2
    simp only [Bool.or_eq_true, Bool.not_eq_eq_eq_not, Bool.not_true,
      decide_eq_false_iff_not, not_lt] at hp
    rcases hp with h1 | h2
    · exact .inl h1
    · right
      omega
  have hmem2 : (cid, st) ∈ (if zombies.isEmpty = true
      then (cleanupOldStates cfg.checkInterval now states, ([] : List String))
      else
        (cleanupOldStates cfg.checkInterval now
          (processContainerZombies cfg wl now states (groupedZombies zombies)).1,
         (processContainerZombies cfg wl now states (groupedZombies zombies)).2)).1 :=
    hmem
  by_cases hz : zombies.isEmpty = true
  · rw [if_pos hz] at hmem2
    exact hfilter states hmem2
  · rw [if_neg hz] at hmem2
    exact hfilter _ hmem2

/-- Claim C9 witness: an in-progress entry survives a completed
empty-detection tick. -/
theorem survivors_fresh_or_in_progress_witness :
    ("c2", inProgressState) ∈
      (runCheck ⟨10, 3, false⟩ [] 100 [("c2", inProgressState)] (some [])).1 ∧
    (inProgressState.inProgress = true ∨
      100 - inProgressState.lastDetected ≤ 3 * (10 : Int)) :=
  ⟨by decide, survivors_fresh_or_in_progress ⟨10, 3, false⟩ [] 100
    [("c2", inProgressState)] [] "c2" inProgressState (by decide)⟩

/-- Claim C9 counterexample: a tick whose detection fails returns before `cleanupOldStates`: the
stale entry (last seen at 0, not in progress, threshold 3 × 10 long passed at
time 100) is still in the map afterwards.  This refutes the claim that such
entries are reaped regardless of whether detection succeeded or failed. -/
theorem idle_reap_skipped_on_detection_failure_cex :
    runCheck ⟨10, 3, false⟩ [] 100 [("c1", staleState)] none
      = ([("c1", staleState)], []) ∧
    staleState.inProgress = false ∧
    100 - staleState.lastDetected > 3 * (10 : Int) := by
  refine ⟨by decide, by decide, by decide⟩

end ZombieCleaner
